import Mathlib

/-!
Verification of the FuDownload orchestration engine: a shallow embedding of
the batch wrapper (`batch_transfer_wrapper.py`), the downloader's fallback
resolver and query-retrieve session (`dicom_downloader.py`), and the status
monitor's event ring buffer (`download_monitor.py`), with theorems about the
spec's claimed properties.

Conventions of the embedding:
* Filesystem interaction is abstracted into explicit data: a directory is the
  list of its entries, path resolution is a list of resolved path components,
  and fallible removals are driven by an oracle `removeOk : String → Bool`
  standing for whether `shutil.rmtree`/`unlink` raises for that entry.
* Python wall-clock floats are modelled as `Int` seconds.
* Python `None`-able strings are `Option String`; Python truthiness of a
  string is `≠ ""`, of `Optional[str]` is `some` of a nonempty string, and
  of a numeric time value is `≠ 0`.
* Python string operations are modelled at the character-list level
  (`pyLower`, `pyTrim`, ...), covering the ASCII fragment server names,
  modalities and CSV fields use.
-/

/-! ## String primitives.  The Python string operations the code uses,
embedded at the character-list level (structural recursion throughout, so
every definition evaluates on concrete inputs). -/

/-- Python `str.lower` (ASCII fragment). -/
def pyLower (s : String) : String :=
  String.mk (s.toList.map Char.toLower)

/-- Python `str.strip()`: whitespace removed from both ends. -/
def pyTrim (s : String) : String :=
  String.mk
    (((s.toList.dropWhile Char.isWhitespace).reverse.dropWhile
      Char.isWhitespace).reverse)

/-- Python `s.startswith(pre)`. -/
def pyStartsWith (s pre : String) : Bool :=
  pre.toList.isPrefixOf s.toList

/-- Python `s.endswith(suf)`. -/
def pyEndsWith (s suf : String) : Bool :=
  suf.toList.isSuffixOf s.toList

/-- Python `s[n:]`: the characters from index `n` on. -/
def pyDrop (s : String) (n : Nat) : String :=
  String.mk (s.toList.drop n)

/-- Python string comparison `a <= b`: lexicographic on code points. -/
def charListLE : List Char → List Char → Bool
  | [], _ => true
  | _ :: _, [] => false
  | a :: as, b :: bs =>
    if a.toNat < b.toNat then true
    else if b.toNat < a.toNat then false
    else charListLE as bs

/-- Python string comparison `a <= b` on `String`. -/
def pyStrLE (a b : String) : Bool :=
  charListLE a.toList b.toList

/-! ## Clear stage (`batch_transfer_wrapper.py`: `is_drive_root`,
`clear_directory_contents`) -/

/-- Embedding of `is_drive_root(path)`: the `parts` of the already-`resolve()`d
path are given as a list of components.  On Windows (`os.name == "nt"`) a
drive root has exactly one part ending in `:\`; on POSIX the resolved path is
the root `/`, whose `parts` are `["/"]`. -/
def is_drive_root (isWindows : Bool) (parts : List String) : Bool :=
  if isWindows then
    match parts with
    | [p] => pyEndsWith p ":\\"
    | _ => false
  else parts = ["/"]

/-- The removal loop of `clear_directory_contents`: for each entry, a dry run
only prints; otherwise the entry is removed when `removeOk` grants it, and a
raised exception (`removeOk = false`) clears the `ok` flag and leaves the
entry in place.  Returns the `ok` flag and the entries left behind. -/
def clearEntries (removeOk : String → Bool) (dryRun : Bool) :
    List String → Bool × List String
  | [] => (true, [])
  | e :: rest =>
    if dryRun then
      let r := clearEntries removeOk dryRun rest
      (r.1, e :: r.2)
    else if removeOk e then
      clearEntries removeOk dryRun rest
    else
      let r := clearEntries removeOk dryRun rest
      (false, e :: r.2)

/-- Embedding of `clear_directory_contents(path, dry_run)`.  `parts` are the
resolved components of the target path, `pathExists` is `target.exists()` and
`entries` is `target.iterdir()`.  A missing target and a drive root both
return `False` without touching anything; otherwise the removal loop runs. -/
def clear_directory_contents (isWindows : Bool) (parts : List String)
    (pathExists : Bool) (entries : List String) (removeOk : String → Bool)
    (dryRun : Bool) : Bool × List String :=
  if !pathExists then (false, entries)
  else if is_drive_root isWindows parts then (false, entries)
  else clearEntries removeOk dryRun entries

/-! ## Cleanup scheduler (`batch_transfer_wrapper.py`: `maybe_run_cleanup`) -/

/-- Embedding of `maybe_run_cleanup(last_cleanup, interval_seconds, ...)`.
Returns the new `last_cleanup` value together with a flag observing whether
the purge section (the `cleanup_old_entries` calls guarded by the TTLs) was
reached.  Note the Python guard is `if last_cleanup and (now - last_cleanup)
< interval_seconds`: a zero `last_cleanup` is falsy, so the recency test is
skipped entirely on the first call. -/
def maybe_run_cleanup (last_cleanup : Int) (interval_seconds : Int)
    (now : Int) : Int × Bool :=
  if interval_seconds ≤ 0 then (last_cleanup, false)
  else if last_cleanup ≠ 0 ∧ now - last_cleanup < interval_seconds then
    (last_cleanup, false)
  else (now, true)

/-! ## Post-success zip cleanup (`batch_transfer_wrapper.py`: `main`,
the block handling `zip_path.unlink()` after a successful transfer) -/

/-- The run-level state touched by the post-success cleanup block of `main`:
the `overall_ok` flag, the error counter, the monitor phase, the monitor
event log (level, message pairs), and whether the batch loop `break`s. -/
structure RunState where
  overall_ok : Bool
  errors_count : Nat
  phase : String
  events : List (String × String)
  aborted : Bool
deriving DecidableEq

/-- Embedding of the post-success cleanup block of `main` (zip mode): after a
transfer exit code of 0, when the mode is `zip` and neither `--keep-zip` nor
`--dry-run` is set, the zip file is unlinked and the empty batch directory
removed; `cleanupOk` stands for that `try` block not raising.  On failure the
code sets `overall_ok = False`, increments `errors_count`, moves the phase to
`zip_cleanup_error`, logs a WARNING event, and `break`s when
`--stop-on-error` is set. -/
def post_success_cleanup (transferMode : String) (keepZip dryRun : Bool)
    (cleanupOk : Bool) (stopOnError : Bool) (st : RunState) : RunState :=
  if transferMode = "zip" then
    if !keepZip && !dryRun then
      if cleanupOk then st
      else
        { overall_ok := false
          errors_count := st.errors_count + 1
          phase := "zip_cleanup_error"
          events := st.events ++ [("WARNING", "Zip cleanup failed")]
          aborted := stopOnError }
    else st
  else st

/-! ## Status publisher event ring (`download_monitor.py`: `DownloadMonitor`) -/

/-- One entry of the monitor's `recent_events` ring buffer. -/
structure MonitorEvent where
  timestamp : String
  level : String
  message : String
deriving DecidableEq

/-- The capacity of `deque(maxlen=200)`. -/
def monitorRingCapacity : Nat := 200

/-- Embedding of `DownloadMonitor.log_event`: append to the `recent_events`
deque, which (having `maxlen=200`) discards entries from the front once the
length would exceed 200. -/
def log_event (events : List MonitorEvent) (e : MonitorEvent) :
    List MonitorEvent :=
  let appended := events ++ [e]
  if monitorRingCapacity < appended.length then
    appended.drop (appended.length - monitorRingCapacity)
  else appended

/-- The `recent_logs` field of `_build_status_payload`:
`list(reversed(logs_snapshot))`, the retained events most recent first. -/
def recent_logs (events : List MonitorEvent) : List MonitorEvent :=
  events.reverse

/-! ## Candidate resolver (`dicom_downloader.py`: `_resolve_server_name`,
`_expand_server_chain`, `_dedupe_servers`, `build_modality_candidates`,
`build_server_candidates`).  The configured registry `self.config['servers']`
is carried as the list of its keys in insertion order. -/

/-- Embedding of Python `str.isdigit()` restricted to ASCII: nonempty and all
decimal digits (the form `int(...)` then accepts). -/
def isPyDigits (s : String) : Bool :=
  !s.toList.isEmpty && s.toList.all Char.isDigit

/-- The value of Python `int(s)` for a decimal digit string. -/
def digitsToNat (s : String) : Nat :=
  s.toList.foldl (fun n c => n * 10 + (c.toNat - 48)) 0

/-- Embedding of `_resolve_server_name`: `None` or a blank name resolves to
nothing; an exact registry key is kept; otherwise the first registry key
equal case-insensitively is taken; an unresolvable name is carried forward
literally. -/
def resolve_server_name (servers : List String) (name : Option String) :
    Option String :=
  match name with
  | none => none
  | some s =>
    if s = "" then none
    else
      let s := pyTrim s
      if s = "" then none
      else if s ∈ servers then some s
      else
        match servers.find? (fun c => pyLower c = pyLower s) with
        | some c => some c
        | none => some s

/-- The comparison `sorted()` applies to the `(int(remainder), name)` pairs of
`_expand_server_chain`: ascending Python tuple order, numeric suffix first,
name as tie-break. -/
def suffixLE (a b : Nat × String) : Bool :=
  a.1 < b.1 || (a.1 == b.1 && pyStrLE a.2 b.2)

/-- `suffixLE` as a relation, for `List.insertionSort` (the embedding of the
stable `sorted()`). -/
def suffixRel (a b : Nat × String) : Prop :=
  suffixLE a b = true

instance : DecidableRel suffixRel :=
  fun a b => inferInstanceAs (Decidable (suffixLE a b = true))

/-- The suffix-collection loop of `_expand_server_chain`: each configured
name that starts with the resolved base case-insensitively, is not the base
itself, and whose remainder (the original-case slice past the base's length)
is purely numeric, paired with that remainder's numeric value. -/
def suffixCandidates (servers : List String) (resolved : String) :
    List (Nat × String) :=
  servers.filterMap (fun c =>
    if pyStartsWith (pyLower c) (pyLower resolved) &&
        pyLower c != pyLower resolved then
      if isPyDigits (pyDrop c resolved.length) then
        some (digitsToNat (pyDrop c resolved.length), c)
      else none
    else none)

/-- Embedding of `_expand_server_chain`: the resolved base followed by its
suffix candidates sorted ascending by `(numeric remainder, name)` (the
embedding of the stable `sorted()` over those pairs). -/
def expand_server_chain (servers : List String) (name : Option String) :
    List String :=
  match resolve_server_name servers name with
  | none => []
  | some resolved =>
    resolved ::
      (List.insertionSort suffixRel (suffixCandidates servers resolved)).map
        Prod.snd

/-- The accumulator loop of `_dedupe_servers`: `seen` is the set of names
already emitted; falsy (empty) names and repeats are dropped, first
occurrences kept in order. -/
def dedupeGo (seen : List String) : List String → List String
  | [] => []
  | s :: rest =>
    if s ≠ "" ∧ s ∉ seen then s :: dedupeGo (s :: seen) rest
    else dedupeGo seen rest

/-- Embedding of `_dedupe_servers`. -/
def dedupe_servers (servers : List String) : List String :=
  dedupeGo [] servers

/-- One `add_modality` step of `build_modality_candidates` over the state
`(candidates, seen)`: skip `None` and blank values, otherwise append the
trimmed value unless its lowercase key was already seen. -/
def addModality (st : List String × List String) (v : Option String) :
    List String × List String :=
  match v with
  | none => st
  | some s =>
    let s := pyTrim s
    if s = "" then st
    else if pyLower s ∈ st.2 then st
    else (st.1 ++ [s], st.2 ++ [pyLower s])

/-- Embedding of `build_modality_candidates`: the primary modality then the
alternates, each trimmed and case-insensitively de-duplicated; when that
leaves nothing, `candidates or [primary_modality]` falls back to the
one-element list holding the primary verbatim (even `None`). -/
def build_modality_candidates (primary : Option String)
    (altModalities : List String) : List (Option String) :=
  let st := addModality ([], []) primary
  let st := altModalities.foldl (fun acc alt => addModality acc (some alt)) st
  if st.1 = [] then [primary] else st.1.map some

/-- Embedding of `build_server_candidates`: the expansion of the truthy
primary server, then the expansions of every truthy lookup base (all
configured names when the sentinel `all` appears, case-insensitively), the
whole list de-duplicated keeping first occurrences. -/
def build_server_candidates (servers : List String) (primary : Option String)
    (lookupServers : List String) : List String :=
  let primaryPart :=
    match primary with
    | none => []
    | some p => if p = "" then [] else expand_server_chain servers (some p)
  let lookupPart :=
    if lookupServers = [] then []
    else
      let filtered := lookupServers.filter (fun v => v ≠ "")
      let lookupAll := filtered.any (fun v => pyLower v == "all")
      let bases := if lookupAll then servers else filtered
      bases.flatMap (fun b => expand_server_chain servers (some b))
  dedupe_servers (primaryPart ++ lookupPart)

/-! ## Fallback driver (`dicom_downloader.py`: `process_query_with_lookup`).
The per-pair attempt `self.process_query(..., record_failure=False)` is
abstracted as an oracle `attempt : server → modality → success × reason`;
the embedding additionally returns the trace of `(server, modality)` pairs
for which `process_query` was invoked, in call order. -/

/-- The inner modality loop for one candidate server: each modality is
attempted in order; the first success returns immediately, a failure stores
its reason in `last_reason` and moves on. -/
def tryModalities (attempt : String → Option String → Bool × Option String)
    (server : String) :
    List (Option String) → Option String →
      Bool × List (String × Option String) × Option String
  | [], lastReason => (false, [], lastReason)
  | m :: ms, lastReason =>
    let a := attempt server m
    if a.1 then (true, [(server, m)], lastReason)
    else
      let r := tryModalities attempt server ms a.2
      (r.1, (server, m) :: r.2.1, r.2.2)

/-- The outer server loop of `process_query_with_lookup`: all modalities are
tried for one server before the next server is considered, short-circuiting
on the first success. -/
def tryServers (attempt : String → Option String → Bool × Option String) :
    List String → List (Option String) → Option String →
      Bool × List (String × Option String) × Option String
  | [], _, lastReason => (false, [], lastReason)
  | s :: ss, ms, lastReason =>
    let r := tryModalities attempt s ms lastReason
    if r.1 then (true, r.2.1, r.2.2)
    else
      let rr := tryServers attempt ss ms r.2.2
      (rr.1, r.2.1 ++ rr.2.1, rr.2.2)

/-- Embedding of `process_query_with_lookup`: builds the candidate chains,
signals `False` with no attempt when no server is available, and otherwise
runs the nested fallback loops.  Returns the overall success flag and the
trace of attempted `(server, modality)` pairs. -/
def process_query_with_lookup (servers : List String)
    (primaryServer : Option String) (lookupServers : List String)
    (modality : Option String) (altModalities : List String)
    (attempt : String → Option String → Bool × Option String) :
    Bool × List (String × Option String) :=
  let candidates := build_server_candidates servers primaryServer lookupServers
  let modalityCandidates := build_modality_candidates modality altModalities
  if candidates = [] then (false, [])
  else
    let r := tryServers attempt candidates modalityCandidates none
    (r.1, r.2.1)

/-- The nested iteration order of `process_query_with_lookup`: the
cross-product of servers and modalities, all modalities for one server before
the next server. -/
def crossPairs (candidates : List String)
    (modalityCandidates : List (Option String)) :
    List (String × Option String) :=
  candidates.flatMap (fun s => modalityCandidates.map (fun m => (s, m)))

/-- The prefix of a list up to and including its first element satisfying
`p` (the whole list when none does): the attempts a short-circuiting loop
makes. -/
def takeThrough (p : α → Bool) : List α → List α
  | [] => []
  | x :: xs => if p x then [x] else x :: takeThrough p xs

/-! ## Query-retrieve session (`dicom_downloader.py`: `process_query`).  The
session's Association Service half is abstracted: `studies` is the list of
study UIDs `query_studies` returned and `moveOk` whether `send_c_move`
succeeds for a given study UID.  The outcome-log state mirrors
`move_requests` (study UID, status), `successful_downloads` (per-case lists
of moved studies) and `failed_downloads` (reason strings). -/

/-- The session-scoped outcome logs of `DICOMDownloader` touched by
`process_query`. -/
structure SessionState where
  move_requests : List (String × String)
  successful_downloads : List (List String)
  failed_downloads : List String
deriving DecidableEq

/-- Embedding of the retrieve phase of `process_query`, entered after server
resolution with the query's `studies` in hand: zero results fail with
`No matching studies found`; otherwise one C-MOVE per study, successes
appended to `move_requests` (status `SUCCESS`), failures recorded and the
`all_successful` flag cleared; `successful_downloads` gains the case only
when every move succeeded; the failure reason counts the failed studies. -/
def process_query (moveOk : String → Bool) (recordFailure : Bool)
    (studies : List String) (st : SessionState) :
    (Bool × Option String) × SessionState :=
  if studies = [] then
    ((false, some "No matching studies found"),
     { st with failed_downloads :=
         st.failed_downloads ++
           (if recordFailure then ["No matching studies found"] else []) })
  else
    let studiesMoved := studies.filter moveOk
    let failedStudies := studies.filter (fun u => !moveOk u)
    let allSuccessful := failedStudies.isEmpty
    let st :=
      { st with
        move_requests :=
          st.move_requests ++ studiesMoved.map (fun u => (u, "SUCCESS"))
        failed_downloads :=
          st.failed_downloads ++
            (if recordFailure then
              failedStudies.map (fun u => "C-MOVE failed for study " ++ u)
            else []) }
    let st :=
      if allSuccessful && !studiesMoved.isEmpty then
        { st with successful_downloads :=
            st.successful_downloads ++ [studiesMoved] }
      else st
    if !allSuccessful then
      ((false,
        some ("C-MOVE failed for " ++ toString failedStudies.length ++
          " of " ++ toString studies.length ++ " studies")), st)
    else ((true, none), st)

/-! ## Case ingestor (`batch_transfer_wrapper.py`: `normalize_key`,
`get_field`, `parse_case_list`).  The worklist is carried as its list of
text lines (without newline characters); the `csv` module's simple
unquoted-field behaviour is embedded directly: a blank line parses to no
fields, any other line splits on commas. -/

/-- Embedding of `normalize_key`: drop all whitespace, lowercase. -/
def normalize_key (s : String) : String :=
  String.mk ((s.toList.filter (fun c => !c.isWhitespace)).map Char.toLower)

/-- Whether `needle` occurs as a substring of `hay` (Python `in`). -/
def strContains (hay needle : String) : Bool :=
  (List.range (hay.length + 1)).any
    (fun i => needle.toList.isPrefixOf (hay.toList.drop i))

/-- Splitting a character list on a separator character, every field kept
(Python `str.split(sep)` on a nonempty string). -/
def splitFieldsAux (sep : Char) : List Char → List Char → List String
  | [], cur => [String.mk cur.reverse]
  | c :: cs, cur =>
    if c = sep then String.mk cur.reverse :: splitFieldsAux sep cs []
    else splitFieldsAux sep cs (c :: cur)

/-- One line of the worklist as `csv.reader` yields it (no quoting in play):
a blank line gives no fields, any other line splits on commas. -/
def splitCsv (line : String) : List String :=
  if line = "" then [] else splitFieldsAux ',' line.toList []

/-- The `skipinitialspace=True` option of the positional branch's reader:
spaces immediately after a delimiter are dropped. -/
def skipInitialSpace : List String → List String
  | [] => []
  | f :: rest =>
    f :: rest.map (fun s => String.mk (s.toList.dropWhile (fun c => c = ' ')))

/-- The header-token set `parse_case_list` scans the first line for. -/
def headerTokens : List String :=
  ["patientid", "patient_id", "studydate", "study_date", "date", "modality",
   "server"]

/-- The header auto-detection of `parse_case_list`: any token occurring in
the normalized first line (with a leading byte-order mark stripped). -/
def hasHeaderLine (firstLine : String) : Bool :=
  let headerLine :=
    normalize_key
      (String.mk (firstLine.toList.dropWhile (fun c => c.toNat = 0xFEFF)))
  headerTokens.any (fun t => strContains headerLine t)

/-- The `normalized_fields` map: each field name keyed by its normalized
form, later fields overriding earlier ones (`dict` assignment order), read
back as `normalized_fields.get(key)`. -/
def normalizedFieldsGet (fieldnames : List String) (key : String) :
    Option String :=
  ((fieldnames.map (fun f => (normalize_key f, f))).reverse.find?
    (fun p => p.1 = key)).map Prod.snd

/-- A `csv.DictReader` row lookup `row.get(name)`: the fieldnames are zipped
with the row's values, missing values filled with `None` (`restval`), and for
duplicate fieldnames the last pairing wins.  `none` stands for both an absent
key and a `None` value, which `get_field` treats alike. -/
def rowGet (fieldnames : List String) (values : List String) (name : String) :
    Option String :=
  match ((List.range fieldnames.length).filter
        (fun i => fieldnames.get? i = some name)).getLast? with
  | some i => values.get? i
  | none => none

/-- Embedding of `get_field(row, *candidates)`: the first candidate that is a
real field name whose value is present and non-blank yields that value
stripped. -/
def get_field (row : String → Option String) :
    List (Option String) → Option String
  | [] => none
  | none :: rest => get_field row rest
  | some c :: rest =>
    if c = "" then get_field row rest
    else
      match row c with
      | some v =>
        if pyTrim v = "" then get_field row rest else some (pyTrim v)
      | none => get_field row rest

/-- The patient-id field of a header-mode row, `get_field` over the aliases
`patientid`, `patient_id`, `patient`, `id`. -/
def headerPatient (fieldnames : List String) (values : List String) :
    Option String :=
  get_field (rowGet fieldnames values)
    [normalizedFieldsGet fieldnames "patientid",
     normalizedFieldsGet fieldnames "patient_id",
     normalizedFieldsGet fieldnames "patient",
     normalizedFieldsGet fieldnames "id"]

/-- Whether a header-mode row is a comment: its patient field starts with
`#`. -/
def isHeaderComment (fieldnames : List String) (values : List String) : Bool :=
  match headerPatient fieldnames values with
  | some p => pyStartsWith p "#"
  | none => false

/-- Whether a header-mode row has every required field (patient id, study
date, modality, server) present and non-blank — the `all([...])` check. -/
def headerRowComplete (fieldnames : List String) (values : List String) :
    Bool :=
  let row := rowGet fieldnames values
  (headerPatient fieldnames values).isSome &&
  (get_field row
    [normalizedFieldsGet fieldnames "studydate",
     normalizedFieldsGet fieldnames "study_date",
     normalizedFieldsGet fieldnames "date"]).isSome &&
  (get_field row [normalizedFieldsGet fieldnames "modality"]).isSome &&
  (get_field row [normalizedFieldsGet fieldnames "server"]).isSome

/-- The header-branch row loop of `parse_case_list` over the data rows (blank
rows already consumed by `DictReader`): comments are dropped silently,
incomplete rows counted as skipped, complete rows kept in order. -/
def parseHeaderRows (fieldnames : List String) :
    List (List String) → List (List String) × Nat
  | [] => ([], 0)
  | values :: rest =>
    let r := parseHeaderRows fieldnames rest
    if isHeaderComment fieldnames values then r
    else if headerRowComplete fieldnames values then (values :: r.1, r.2)
    else (r.1, r.2 + 1)

/-- Whether a positional row is dropped silently: blank, or its first field
strips to a `#` comment. -/
def isPositionalDropped (row : List String) : Bool :=
  match row with
  | [] => true
  | f :: _ => pyStartsWith (pyTrim f) "#"

/-- The positional-branch row loop of `parse_case_list`: blank and comment
rows dropped, rows with fewer than 4 columns counted as skipped, the rest
kept in order. -/
def parsePositionalRows : List (List String) → List (List String) × Nat
  | [] => ([], 0)
  | row :: rest =>
    let r := parsePositionalRows rest
    if isPositionalDropped row then r
    else if row.length < 4 then (r.1, r.2 + 1)
    else (row :: r.1, r.2)

/-- The result of `parse_case_list`: the detection flag, the header's field
names when one was found, the kept rows (header rows as their value lists),
and the skipped-row count. -/
structure ParseResult where
  has_header : Bool
  fieldnames : Option (List String)
  rows : List (List String)
  skipped : Nat
deriving DecidableEq

/-- Embedding of `parse_case_list` over the worklist's lines: the first line
chooses the branch; with a header, the first line's fields name the columns
and the remaining non-blank rows run through the header loop; without one,
every line runs through the positional loop with `skipinitialspace`. -/
def parse_case_list (lines : List String) : ParseResult :=
  match lines with
  | [] => { has_header := false, fieldnames := none, rows := [], skipped := 0 }
  | firstLine :: rest =>
    if hasHeaderLine firstLine then
      let fieldnames := splitCsv firstLine
      let dataRows := (rest.map splitCsv).filter (fun v => v ≠ [])
      let r := parseHeaderRows fieldnames dataRows
      { has_header := true, fieldnames := some fieldnames, rows := r.1,
        skipped := r.2 }
    else
      let r := parsePositionalRows
        ((firstLine :: rest).map (fun l => skipInitialSpace (splitCsv l)))
      { has_header := false, fieldnames := none, rows := r.1, skipped := r.2 }

/-- The rows the counting property ranges over: the input rows excluding
comment and blank lines (and, in header mode, the header line itself). -/
def countedRows (lines : List String) : Nat :=
  match lines with
  | [] => 0
  | firstLine :: rest =>
    if hasHeaderLine firstLine then
      let fieldnames := splitCsv firstLine
      (((rest.map splitCsv).filter (fun v => v ≠ [])).filter
        (fun v => !isHeaderComment fieldnames v)).length
    else
      (((firstLine :: rest).map (fun l => skipInitialSpace (splitCsv l))).filter
        (fun row => !isPositionalDropped row)).length

/-! ## Theorems -/

/-- C1: for every path whose resolved form is a filesystem/drive root, the
clear operation (`clear_directory_contents`) returns failure and removes no
entry, for every value of the dry-run flag (and any state of the target's
existence and entries). -/
theorem clear_refuses_drive_root (isWindows : Bool) (parts : List String)
    (pathExists : Bool) (entries : List String) (removeOk : String → Bool)
    (dryRun : Bool) (h : is_drive_root isWindows parts = true) :
    clear_directory_contents isWindows parts pathExists entries removeOk
      dryRun = (false, entries) := by
  unfold clear_directory_contents
  cases pathExists <;> simp [h]

/-- C1 witness: the POSIX root `/` with two entries is refused with nothing
removed, both with and without the dry-run flag. -/
theorem clear_refuses_drive_root_witness :
    is_drive_root false ["/"] = true ∧
    clear_directory_contents false ["/"] true ["a", "b"] (fun _ => true)
      false = (false, ["a", "b"]) ∧
    clear_directory_contents false ["/"] true ["a", "b"] (fun _ => true)
      true = (false, ["a", "b"]) :=
  ⟨by decide,
   clear_refuses_drive_root false ["/"] true ["a", "b"] (fun _ => true)
     false (by decide),
   clear_refuses_drive_root false ["/"] true ["a", "b"] (fun _ => true)
     true (by decide)⟩

/-- C8 counterexample: with `last_run = 0` (Python-falsy), `now = 100` and
`interval = 600`, the claimed no-op condition `now - last_run < interval`
holds, yet `maybe_run_cleanup` runs the purge and returns `now`. -/
theorem maybe_run_cleanup_purges_at_zero_last_run :
    (100 : Int) - 0 < 600 ∧ maybe_run_cleanup 0 600 100 = (100, true) := by
  decide

/-- C8 amended: `maybe_run_cleanup` is a no-op returning `last_run` unchanged
whenever `interval ≤ 0`, or `last_run ≠ 0` and `now - last_run < interval`
(a zero `last_run` means "never ran" and purges whenever `interval > 0`);
otherwise it purges and returns `now`.  With `interval = 600`, two calls
within 600s of each other (at 1000 then 1400) trigger the purge only once. -/
theorem maybe_run_cleanup_throttles :
    (∀ lastRun interval now : Int,
        interval ≤ 0 ∨ (lastRun ≠ 0 ∧ now - lastRun < interval) →
        maybe_run_cleanup lastRun interval now = (lastRun, false))
    ∧ (∀ lastRun interval now : Int,
        0 < interval → (lastRun = 0 ∨ interval ≤ now - lastRun) →
        maybe_run_cleanup lastRun interval now = (now, true))
    ∧ maybe_run_cleanup 0 600 1000 = (1000, true)
    ∧ maybe_run_cleanup 1000 600 1400 = (1000, false) := by
  refine ⟨?_, ?_, by decide, by decide⟩
  · intro lastRun interval now h
    by_cases hi : interval ≤ 0
    · simp [maybe_run_cleanup, hi]
    · rcases h with h | hr
      · exact absurd h hi
      · simp [maybe_run_cleanup, hi, hr.1, hr.2]
  · intro lastRun interval now hi h
    have h1 : ¬ interval ≤ 0 := by omega
    have h2 : ¬ (lastRun ≠ 0 ∧ now - lastRun < interval) := by
      rcases h with h | h
      · simp [h]
      · rintro ⟨-, hlt⟩
        omega
    simp [maybe_run_cleanup, h1, h2]

/-- C9 counterexample: in zip mode without the keep flag, when deleting the
package file fails after a successful transfer (`cleanupOk = false`) under
`stop_on_error`, the run does not stay marked successful with an unchanged
error count: `overall_ok` is cleared, the error count increments, and the
remaining run is aborted. -/
theorem zip_cleanup_failure_escalates :
    ¬ ((post_success_cleanup "zip" false false false true
          ⟨true, 0, "idle", [], false⟩).overall_ok = true
       ∧ (post_success_cleanup "zip" false false false true
          ⟨true, 0, "idle", [], false⟩).errors_count = 0
       ∧ (post_success_cleanup "zip" false false false true
          ⟨true, 0, "idle", [], false⟩).aborted = false) := by
  decide

/-- C9 amended: for a batch whose transfer succeeds in zip mode without the
keep flag, a failure while deleting the package file or removing the batch
staging directory is logged as a WARNING-level monitor event, but it does
mark the run as failed (`overall_ok = False`), increments the error count,
sets the phase to `zip_cleanup_error`, and aborts the remaining run exactly
when `stop_on_error` is set; a successful cleanup (or `--keep-zip`) leaves
the state unchanged. -/
theorem zip_cleanup_failure_behavior :
    (∀ (st : RunState) (stopOnError : Bool),
        post_success_cleanup "zip" false false false stopOnError st =
          { overall_ok := false
            errors_count := st.errors_count + 1
            phase := "zip_cleanup_error"
            events := st.events ++ [("WARNING", "Zip cleanup failed")]
            aborted := stopOnError })
    ∧ (∀ (st : RunState) (stopOnError : Bool),
        post_success_cleanup "zip" false false true stopOnError st = st)
    ∧ (∀ (st : RunState) (cleanupOk stopOnError : Bool),
        post_success_cleanup "zip" true false cleanupOk stopOnError st = st) := by
  refine ⟨?_, ?_, ?_⟩ <;> intros <;> rfl

/-- One `log_event` step is exactly "append, then keep the most recent 200":
Nat subtraction makes the drop index 0 while the buffer is short. -/
theorem log_event_eq_drop (acc : List MonitorEvent) (e : MonitorEvent) :
    log_event acc e =
      (acc ++ [e]).drop ((acc ++ [e]).length - monitorRingCapacity) := by
  simp only [log_event]
  split
  · rfl
  · next h =>
    have hz : (acc ++ [e]).length - monitorRingCapacity = 0 := by omega
    rw [hz, List.drop_zero]

/-- A `log_event` step never leaves more than the capacity behind. -/
theorem log_event_length_le (acc : List MonitorEvent) (e : MonitorEvent) :
    (log_event acc e).length ≤ monitorRingCapacity := by
  simp only [log_event]
  split
  · next h =>
    rw [List.length_drop]
    omega
  · next h =>
    omega

/-- Folding `log_event` over a stream keeps exactly the most recent 200
events of buffer-plus-stream, for any starting buffer within capacity. -/
theorem foldl_log_event (es : List MonitorEvent) :
    ∀ acc : List MonitorEvent, acc.length ≤ monitorRingCapacity →
    es.foldl log_event acc =
      (acc ++ es).drop ((acc ++ es).length - monitorRingCapacity) := by
  induction es with
  | nil =>
    intro acc h
    rw [List.foldl_nil, List.append_nil]
    have hz : acc.length - monitorRingCapacity = 0 := Nat.sub_eq_zero_of_le h
    rw [hz, List.drop_zero]
  | cons e es ih =>
    intro acc h
    rw [List.foldl_cons, ih (log_event acc e) (log_event_length_le acc e),
      log_event_eq_drop acc e]
    have hle : (acc ++ [e]).length - monitorRingCapacity ≤
        (acc ++ [e]).length := Nat.sub_le _ _
    rw [← List.drop_append_of_le_length hle, List.drop_drop]
    have hassoc : acc ++ [e] ++ es = acc ++ e :: es := by
      rw [List.append_assoc, List.singleton_append]
    rw [hassoc]
    have hidx :
        (acc ++ [e]).length - monitorRingCapacity
          + (((acc ++ e :: es).drop
              ((acc ++ [e]).length - monitorRingCapacity)).length
            - monitorRingCapacity)
        = (acc ++ e :: es).length - monitorRingCapacity := by
      simp only [List.length_drop, List.length_append, List.length_cons,
        List.length_nil]
      omega
    rw [hidx]

/-- C10: for every sequence of `log_event` operations, the Status Publisher's
event ring buffer holds at most 200 entries — precisely the most recent 200
events logged — and the status payload's `recent_logs` field lists the
retained events most recent first (the reverse of the retained buffer, whose
first element is the event logged last). -/
theorem monitor_ring_bounded :
    (∀ es : List MonitorEvent,
        (es.foldl log_event []).length ≤ monitorRingCapacity)
    ∧ (∀ es : List MonitorEvent,
        es.foldl log_event [] = es.drop (es.length - monitorRingCapacity))
    ∧ (∀ (events : List MonitorEvent) (e : MonitorEvent),
        (recent_logs (log_event events e)).head? = some e)
    ∧ (∀ es : List MonitorEvent,
        recent_logs (es.foldl log_event []) =
          (es.drop (es.length - monitorRingCapacity)).reverse) := by
  have h0 : ([] : List MonitorEvent).length ≤ monitorRingCapacity := by
    simp
  have hfold : ∀ es : List MonitorEvent,
      es.foldl log_event [] = es.drop (es.length - monitorRingCapacity) := by
    intro es
    rw [foldl_log_event es [] h0, List.nil_append]
  refine ⟨?_, hfold, ?_, ?_⟩
  · intro es
    rw [hfold es, List.length_drop]
    omega
  · intro events e
    rw [recent_logs, List.head?_reverse, log_event_eq_drop]
    have hle : (events ++ [e]).length - monitorRingCapacity ≤
        events.length := by
      simp only [List.length_append, List.length_cons, List.length_nil,
        monitorRingCapacity]
      omega
    rw [List.drop_append_of_le_length hle, List.getLast?_concat]
  · intro es
    rw [hfold es, recent_logs]

/-- Membership in the dedupe loop: exactly the nonempty names of the input
not already seen. -/
theorem dedupeGo_mem (l : List String) :
    ∀ (seen : List String) (x : String),
    x ∈ dedupeGo seen l ↔ x ∈ l ∧ x ≠ "" ∧ x ∉ seen := by
  induction l with
  | nil =>
    intro seen x
    simp [dedupeGo]
  | cons s rest ih =>
    intro seen x
    by_cases hc : s ≠ "" ∧ s ∉ seen
    · rw [dedupeGo, if_pos hc]
      simp only [List.mem_cons, ih, not_or]
      obtain ⟨hs1, hs2⟩ := hc
      constructor
      · rintro (rfl | ⟨hx, hne, hxs, hns⟩)
        · exact ⟨Or.inl rfl, hs1, hs2⟩
        · exact ⟨Or.inr hx, hne, hns⟩
      · rintro ⟨rfl | hx, hne, hns⟩
        · exact Or.inl rfl
        · by_cases hxs : x = s
          · exact Or.inl hxs
          · exact Or.inr ⟨hx, hne, hxs, hns⟩
    · rw [dedupeGo, if_neg hc]
      simp only [List.mem_cons, ih]
      constructor
      · rintro ⟨hx, hne, hns⟩
        exact ⟨Or.inr hx, hne, hns⟩
      · rintro ⟨rfl | hx, hne, hns⟩
        · exact absurd ⟨hne, hns⟩ hc
        · exact ⟨hx, hne, hns⟩

/-- The dedupe loop keeps a sublist of its input (first occurrences, in
order). -/
theorem dedupeGo_sublist (l : List String) :
    ∀ seen : List String, (dedupeGo seen l).Sublist l := by
  induction l with
  | nil =>
    intro seen
    rw [dedupeGo]
  | cons s rest ih =>
    intro seen
    rw [dedupeGo]
    split
    · exact (ih (s :: seen)).cons₂ s
    · exact (ih seen).cons s

/-- The dedupe loop never emits a duplicate. -/
theorem dedupeGo_nodup (l : List String) :
    ∀ seen : List String, (dedupeGo seen l).Nodup := by
  induction l with
  | nil =>
    intro seen
    rw [dedupeGo]
    exact List.nodup_nil
  | cons s rest ih =>
    intro seen
    rw [dedupeGo]
    split
    · refine List.nodup_cons.mpr ⟨?_, ih (s :: seen)⟩
      intro hmem
      exact ((dedupeGo_mem rest (s :: seen) s).mp hmem).2.2
        (List.mem_cons_self s seen)
    · exact ih seen

/-- C5: for every registry, primary server and lookup list, the candidate
chain returned by `build_server_candidates` contains no duplicate entries;
the de-duplication pass keeps the first occurrence of each (nonempty) name in
the order of the underlying expansion list (its output is a sublist of the
input containing exactly the input's nonempty names), and on a concrete
registry the chain is the expansion of the primary followed by the lookup
expansions with repeats removed. -/
theorem build_server_candidates_nodup :
    (∀ (servers : List String) (primary : Option String)
        (lookupServers : List String),
        (build_server_candidates servers primary lookupServers).Nodup)
    ∧ (∀ l : List String, (dedupe_servers l).Sublist l)
    ∧ (∀ (l : List String) (x : String),
        x ∈ dedupe_servers l ↔ x ∈ l ∧ x ≠ "")
    ∧ build_server_candidates ["LK", "LK1", "LK2", "OT"] (some "LK")
        ["OT", "LK1"] = ["LK", "LK1", "LK2", "OT"] := by
  refine ⟨?_, ?_, ?_, by decide⟩
  · intro servers primary lookupServers
    exact dedupeGo_nodup _ []
  · intro l
    exact dedupeGo_sublist l []
  · intro l x
    rw [dedupe_servers, dedupeGo_mem]
    simp

/-- One `add_modality` step preserves the seen-set invariant: the seen keys
are exactly the lowercased candidates, without duplicates. -/
theorem addModality_inv (st : List String × List String) (v : Option String)
    (h1 : st.2 = st.1.map pyLower) (h2 : st.2.Nodup) :
    (addModality st v).2 = (addModality st v).1.map pyLower ∧
      (addModality st v).2.Nodup := by
  cases v with
  | none => exact ⟨h1, h2⟩
  | some s =>
    rw [addModality]
    by_cases he : pyTrim s = ""
    · rw [if_pos he]
      exact ⟨h1, h2⟩
    · rw [if_neg he]
      by_cases hm : pyLower (pyTrim s) ∈ st.2
      · rw [if_pos hm]
        exact ⟨h1, h2⟩
      · rw [if_neg hm]
        refine ⟨?_, ?_⟩
        · simp only [List.map_append, List.map_cons, List.map_nil, h1]
        · rw [List.nodup_append]
          refine ⟨h2, by simp, ?_⟩
          intro y hy hysing
          simp only [List.mem_singleton] at hysing
          subst hysing
          exact hm hy

/-- The `add_modality` fold over the alternates preserves the invariant. -/
theorem modalityFold_inv (alts : List String) :
    ∀ st : List String × List String,
    st.2 = st.1.map pyLower → st.2.Nodup →
    ((alts.foldl (fun acc alt => addModality acc (some alt)) st).2 =
        (alts.foldl (fun acc alt => addModality acc (some alt)) st).1.map
          pyLower
      ∧ (alts.foldl (fun acc alt => addModality acc (some alt)) st).2.Nodup) := by
  induction alts with
  | nil =>
    intro st h1 h2
    exact ⟨h1, h2⟩
  | cons a alts ih =>
    intro st h1 h2
    rw [List.foldl_cons]
    obtain ⟨g1, g2⟩ := addModality_inv st (some a) h1 h2
    exact ih (addModality st (some a)) g1 g2

/-- C7: for every primary modality and alternates list,
`build_modality_candidates` returns the primary followed by the alternates,
each trimmed and de-duplicated case-insensitively (no two entries share a
lowercase form); when that result would be empty it returns the one-element
list holding the primary verbatim (even when the primary is null or blank),
so the result always has at least one entry. -/
theorem build_modality_candidates_spec :
    (∀ (primary : Option String) (alts : List String),
        build_modality_candidates primary alts ≠ [])
    ∧ (∀ (primary : Option String) (alts : List String),
        (build_modality_candidates primary alts).Pairwise
          (fun x y => Option.map pyLower x ≠ Option.map pyLower y))
    ∧ build_modality_candidates (some " ct ") ["CT", "MR"]
        = [some "ct", some "MR"]
    ∧ build_modality_candidates none [" ", ""] = [none]
    ∧ build_modality_candidates (some " ") [""] = [some " "] := by
  refine ⟨?_, ?_, by decide, by decide, by decide⟩
  · intro primary alts
    simp only [build_modality_candidates]
    split
    · simp
    · next h => simp [h]
  · intro primary alts
    simp only [build_modality_candidates]
    have h0 := addModality_inv ([], []) primary rfl List.nodup_nil
    have hinv := modalityFold_inv alts (addModality ([], []) primary) h0.1 h0.2
    split
    · exact List.pairwise_singleton _ _
    · have hp : (alts.foldl (fun acc alt => addModality acc (some alt))
          (addModality ([], []) primary)).1.Pairwise
            (fun a b => pyLower a ≠ pyLower b) := by
        have hnd := hinv.2
        rw [hinv.1] at hnd
        unfold List.Nodup at hnd
        rw [List.pairwise_map] at hnd
        exact hnd
      rw [List.pairwise_map]
      refine hp.imp ?_
      intro a b hab
      simpa using hab

/-- Python string comparison is transitive. -/
theorem charListLE_trans :
    ∀ as bs cs : List Char, charListLE as bs = true →
      charListLE bs cs = true → charListLE as cs = true := by
  intro as
  induction as with
  | nil =>
    intro bs cs h1 h2
    rfl
  | cons a as ih =>
    intro bs cs h1 h2
    cases bs with
    | nil => simp [charListLE] at h1
    | cons b bs =>
      cases cs with
      | nil => simp [charListLE] at h2
      | cons c cs =>
        rw [charListLE] at h1 h2 ⊢
        by_cases hab : a.toNat < b.toNat
        · rw [if_pos hab] at h1
          by_cases hbc : b.toNat < c.toNat
          · rw [if_pos (by omega : a.toNat < c.toNat)]
          · rw [if_neg hbc] at h2
            by_cases hcb : c.toNat < b.toNat
            · rw [if_pos hcb] at h2
              exact absurd h2 (by decide)
            · rw [if_pos (by omega : a.toNat < c.toNat)]
        · rw [if_neg hab] at h1
          by_cases hba : b.toNat < a.toNat
          · rw [if_pos hba] at h1
            exact absurd h1 (by decide)
          · rw [if_neg hba] at h1
            by_cases hbc : b.toNat < c.toNat
            · rw [if_pos (by omega : a.toNat < c.toNat)]
            · rw [if_neg hbc] at h2
              by_cases hcb : c.toNat < b.toNat
              · rw [if_pos hcb] at h2
                exact absurd h2 (by decide)
              · rw [if_neg hcb] at h2
                rw [if_neg (by omega : ¬ a.toNat < c.toNat),
                  if_neg (by omega : ¬ c.toNat < a.toNat)]
                exact ih bs cs h1 h2

/-- Python string comparison is total. -/
theorem charListLE_total : ∀ as bs : List Char,
    charListLE as bs = true ∨ charListLE bs as = true := by
  intro as
  induction as with
  | nil =>
    intro bs
    exact Or.inl rfl
  | cons a as ih =>
    intro bs
    cases bs with
    | nil => exact Or.inr rfl
    | cons b bs =>
      rw [charListLE, charListLE]
      by_cases hab : a.toNat < b.toNat
      · left
        rw [if_pos hab]
      · by_cases hba : b.toNat < a.toNat
        · right
          rw [if_pos hba]
        · rw [if_neg hab, if_neg hba, if_neg hba, if_neg hab]
          exact ih bs

/-- The Python tuple comparison `suffixLE` is transitive. -/
theorem suffixLE_trans (a b c : Nat × String)
    (h1 : suffixRel a b) (h2 : suffixRel b c) : suffixRel a c := by
  simp only [suffixRel, suffixLE, Bool.or_eq_true, decide_eq_true_eq,
    Bool.and_eq_true, beq_iff_eq, pyStrLE] at h1 h2 ⊢
  rcases h1 with h1 | ⟨hab, hs1⟩
  · rcases h2 with h2 | ⟨hbc, hs2⟩
    · left
      omega
    · left
      omega
  · rcases h2 with h2 | ⟨hbc, hs2⟩
    · left
      omega
    · right
      exact ⟨hab.trans hbc, charListLE_trans _ _ _ hs1 hs2⟩

/-- The Python tuple comparison `suffixLE` is total. -/
theorem suffixLE_total (a b : Nat × String) :
    suffixRel a b ∨ suffixRel b a := by
  simp only [suffixRel, suffixLE, Bool.or_eq_true, decide_eq_true_eq,
    Bool.and_eq_true, beq_iff_eq, pyStrLE]
  rcases Nat.lt_trichotomy a.1 b.1 with h | h | h
  · exact Or.inl (Or.inl h)
  · rcases charListLE_total a.2.toList b.2.toList with hc | hc
    · exact Or.inl (Or.inr ⟨h, hc⟩)
    · exact Or.inr (Or.inr ⟨h.symm, hc⟩)
  · exact Or.inr (Or.inl h)

/-- Membership in the suffix-candidate list of `_expand_server_chain`. -/
theorem mem_suffixCandidates (servers : List String) (resolved : String)
    (p : Nat × String) :
    p ∈ suffixCandidates servers resolved ↔
      p.2 ∈ servers ∧
        pyStartsWith (pyLower p.2) (pyLower resolved) = true ∧
        pyLower p.2 ≠ pyLower resolved ∧
        isPyDigits (pyDrop p.2 resolved.length) = true ∧
        p.1 = digitsToNat (pyDrop p.2 resolved.length) := by
  rw [suffixCandidates, List.mem_filterMap]
  constructor
  · rintro ⟨c, hc, hfc⟩
    split at hfc
    · next hcond =>
      split at hfc
      · next hdig =>
        obtain rfl := Option.some.inj hfc
        simp only [Bool.and_eq_true, bne_iff_ne] at hcond
        exact ⟨hc, hcond.1, hcond.2, hdig, rfl⟩
      · exact absurd hfc (by simp)
    · exact absurd hfc (by simp)
  · rintro ⟨hmem, hstart, hne, hdig, hkey⟩
    refine ⟨p.2, hmem, ?_⟩
    have hcond : (pyStartsWith (pyLower p.2) (pyLower resolved) &&
        (pyLower p.2 != pyLower resolved)) = true := by
      simp [hstart, bne_iff_ne, hne]
    rw [if_pos hcond, if_pos hdig]
    simp [Prod.ext_iff, hkey]

/-- C6: for every resolved base name and server registry, chain expansion
(`_expand_server_chain`) returns the base followed by exactly those other
configured names that start with the base case-insensitively and whose
remainder is purely numeric, with the numeric remainders of the tail in
ascending order. -/
theorem expand_server_chain_spec (servers : List String)
    (name : Option String) (base : String)
    (h : resolve_server_name servers name = some base) :
    expand_server_chain servers name
        = base :: (expand_server_chain servers name).tail
    ∧ (∀ x : String,
        x ∈ (expand_server_chain servers name).tail ↔
          x ∈ servers ∧ pyStartsWith (pyLower x) (pyLower base) = true ∧
            pyLower x ≠ pyLower base ∧
            isPyDigits (pyDrop x base.length) = true)
    ∧ List.Sorted (· ≤ ·)
        ((expand_server_chain servers name).tail.map
          (fun c => digitsToNat (pyDrop c base.length))) := by
  have hexp : expand_server_chain servers name =
      base :: (List.insertionSort suffixRel
        (suffixCandidates servers base)).map Prod.snd := by
    simp only [expand_server_chain, h]
  rw [hexp]
  simp only [List.tail_cons]
  refine ⟨trivial, ?_, ?_⟩
  · intro x
    rw [List.mem_map]
    constructor
    · rintro ⟨p, hp, rfl⟩
      rw [(List.perm_insertionSort suffixRel _).mem_iff,
        mem_suffixCandidates] at hp
      exact ⟨hp.1, hp.2.1, hp.2.2.1, hp.2.2.2.1⟩
    · rintro ⟨hmem, hstart, hne, hdig⟩
      refine ⟨(digitsToNat (pyDrop x base.length), x), ?_, rfl⟩
      rw [(List.perm_insertionSort suffixRel _).mem_iff,
        mem_suffixCandidates]
      exact ⟨hmem, hstart, hne, hdig, rfl⟩
  · have hpair : (List.insertionSort suffixRel
        (suffixCandidates servers base)).Pairwise suffixRel :=
      @List.sorted_insertionSort _ suffixRel _ ⟨suffixLE_total⟩
        ⟨suffixLE_trans⟩ (suffixCandidates servers base)
    have hkey : ∀ p ∈ List.insertionSort suffixRel
        (suffixCandidates servers base),
        ((fun c => digitsToNat (pyDrop c base.length)) ∘ Prod.snd) p
          = Prod.fst p := by
      intro p hp
      rw [(List.perm_insertionSort suffixRel _).mem_iff,
        mem_suffixCandidates] at hp
      exact hp.2.2.2.2.symm
    rw [List.map_map, List.map_congr_left hkey]
    refine (List.pairwise_map).mpr ?_
    refine hpair.imp ?_
    intro a b hab
    simp only [suffixRel, suffixLE, Bool.or_eq_true, decide_eq_true_eq,
      Bool.and_eq_true, beq_iff_eq] at hab
    rcases hab with h1 | ⟨h1, -⟩
    · exact Nat.le_of_lt h1
    · exact Nat.le_of_eq h1

/-- C6 witness: on the registry `LK, LK2, LK1, OT` the name `lk` resolves to
`LK` and expands to `LK, LK1, LK2` — the two numeric-suffixed siblings in
ascending suffix order. -/
theorem expand_server_chain_spec_witness :
    expand_server_chain ["LK", "LK2", "LK1", "OT"] (some "lk")
        = "LK" :: (expand_server_chain ["LK", "LK2", "LK1", "OT"]
            (some "lk")).tail
    ∧ (∀ x : String,
        x ∈ (expand_server_chain ["LK", "LK2", "LK1", "OT"]
            (some "lk")).tail ↔
          x ∈ ["LK", "LK2", "LK1", "OT"] ∧
            pyStartsWith (pyLower x) (pyLower "LK") = true ∧
            pyLower x ≠ pyLower "LK" ∧
            isPyDigits (pyDrop x (String.length "LK")) = true)
    ∧ List.Sorted (· ≤ ·)
        ((expand_server_chain ["LK", "LK2", "LK1", "OT"]
            (some "lk")).tail.map
          (fun c => digitsToNat (pyDrop c (String.length "LK")))) :=
  expand_server_chain_spec ["LK", "LK2", "LK1", "OT"] (some "lk") "LK"
    (by decide)

/-- The inner modality loop succeeds exactly when some modality's attempt
succeeds. -/
theorem tryModalities_success
    (attempt : String → Option String → Bool × Option String) (s : String) :
    ∀ (ms : List (Option String)) (lastReason : Option String),
    (tryModalities attempt s ms lastReason).1 =
      ms.any (fun m => (attempt s m).1) := by
  intro ms
  induction ms with
  | nil =>
    intro lastReason
    rfl
  | cons m ms ih =>
    intro lastReason
    rw [tryModalities, List.any_cons]
    by_cases ha : (attempt s m).1
    · simp [ha]
    · simp only [Bool.not_eq_true] at ha
      simp [ha, ih]

/-- The inner modality loop attempts exactly the pairs up to and including
the first success. -/
theorem tryModalities_trace
    (attempt : String → Option String → Bool × Option String) (s : String) :
    ∀ (ms : List (Option String)) (lastReason : Option String),
    (tryModalities attempt s ms lastReason).2.1 =
      takeThrough (fun q => (attempt q.1 q.2).1)
        (ms.map (fun m => (s, m))) := by
  intro ms
  induction ms with
  | nil =>
    intro lastReason
    rfl
  | cons m ms ih =>
    intro lastReason
    rw [tryModalities, List.map_cons, takeThrough]
    by_cases ha : (attempt s m).1
    · simp [ha]
    · simp only [Bool.not_eq_true] at ha
      simp [ha, ih]

/-- `takeThrough` stops inside the first block that contains a success. -/
theorem takeThrough_append_pos (p : α → Bool) (l₁ l₂ : List α)
    (h : l₁.any p = true) :
    takeThrough p (l₁ ++ l₂) = takeThrough p l₁ := by
  induction l₁ with
  | nil => simp at h
  | cons x xs ih =>
    rw [List.cons_append, takeThrough, takeThrough]
    by_cases hx : p x
    · simp [hx]
    · simp only [Bool.not_eq_true] at hx
      rw [List.any_cons, hx, Bool.false_or] at h
      simp [hx, ih h]

/-- `takeThrough` passes whole failing blocks through. -/
theorem takeThrough_append_neg (p : α → Bool) (l₁ l₂ : List α)
    (h : l₁.any p = false) :
    takeThrough p (l₁ ++ l₂) = l₁ ++ takeThrough p l₂ := by
  induction l₁ with
  | nil => simp
  | cons x xs ih =>
    rw [List.any_cons, Bool.or_eq_false_iff] at h
    rw [List.cons_append, takeThrough, if_neg (by simp [h.1]),
      ih h.2, List.cons_append]


/-- `any` over the pairs formed with one fixed server. -/
theorem any_pair_map (s : String) (ms : List (Option String))
    (f : String × Option String → Bool) :
    (ms.map (fun m => (s, m))).any f = ms.any (fun m => f (s, m)) := by
  induction ms with
  | nil => rfl
  | cons m ms ih => simp [ih]

/-- The outer server loop of the fallback driver succeeds exactly when some
pair of the cross-product succeeds. -/
theorem tryServers_success
    (attempt : String → Option String → Bool × Option String) :
    ∀ (cs : List String) (ms : List (Option String))
      (lastReason : Option String),
    (tryServers attempt cs ms lastReason).1 =
      (crossPairs cs ms).any (fun q => (attempt q.1 q.2).1) := by
  intro cs
  induction cs with
  | nil =>
    intro ms lastReason
    rfl
  | cons s ss ih =>
    intro ms lastReason
    simp only [tryServers]
    rw [crossPairs, List.flatMap_cons, List.any_append]
    simp only [any_pair_map]
    by_cases hs : (tryModalities attempt s ms lastReason).1 = true
    · rw [if_pos hs]
      rw [tryModalities_success] at hs
      rw [hs, Bool.true_or]
    · rw [if_neg hs]
      have hfalse : (ms.any fun m => (attempt s m).1) = false := by
        rw [tryModalities_success] at hs
        simp only [Bool.not_eq_true] at hs
        exact hs
      rw [hfalse, Bool.false_or]
      exact ih ms (tryModalities attempt s ms lastReason).2.2

/-- The outer server loop attempts exactly the cross-product pairs up to and
including the first success, in nested order. -/
theorem tryServers_trace
    (attempt : String → Option String → Bool × Option String) :
    ∀ (cs : List String) (ms : List (Option String))
      (lastReason : Option String),
    (tryServers attempt cs ms lastReason).2.1 =
      takeThrough (fun q => (attempt q.1 q.2).1) (crossPairs cs ms) := by
  intro cs
  induction cs with
  | nil =>
    intro ms lastReason
    rfl
  | cons s ss ih =>
    intro ms lastReason
    simp only [tryServers]
    rw [crossPairs, List.flatMap_cons]
    by_cases hs : (tryModalities attempt s ms lastReason).1 = true
    · rw [if_pos hs]
      have hany : (ms.map (fun m => (s, m))).any
          (fun q => (attempt q.1 q.2).1) = true := by
        rw [any_pair_map]
        rw [tryModalities_success] at hs
        exact hs
      rw [takeThrough_append_pos _ _ _ hany]
      exact tryModalities_trace attempt s ms lastReason
    · rw [if_neg hs]
      have hany : (ms.map (fun m => (s, m))).any
          (fun q => (attempt q.1 q.2).1) = false := by
        rw [any_pair_map]
        rw [tryModalities_success] at hs
        simp only [Bool.not_eq_true] at hs
        exact hs
      rw [takeThrough_append_neg _ _ _ hany]
      have htail := ih ms (tryModalities attempt s ms lastReason).2.2
      have hhead := tryModalities_trace attempt s ms lastReason
      have hfull : takeThrough (fun q => (attempt q.1 q.2).1)
          (ms.map fun m => (s, m)) = ms.map fun m => (s, m) := by
        clear htail hhead ih hs
        induction ms with
        | nil => rfl
        | cons m ms ihm =>
          rw [List.map_cons, takeThrough]
          rw [List.map_cons, List.any_cons, Bool.or_eq_false_iff] at hany
          rw [if_neg (by simp [hany.1]), ihm hany.2]
      show (tryModalities attempt s ms lastReason).2.1 ++
          (tryServers attempt ss ms
            (tryModalities attempt s ms lastReason).2.2).2.1
        = _
      rw [htail, hhead, hfull]
      rfl

/-- C2: for every candidate chain and modality chain, the Fallback Driver
(`process_query_with_lookup`) attempts `(server, modality)` pairs in nested
order — all modalities for the first server before any modality of the next
server — and stops at the first successful attempt (its trace is the
cross-product's prefix through the first success); in particular, with a stub
attempt that succeeds only on the 3rd pair, exactly 3 attempts are made, in
chain order. -/
theorem process_query_with_lookup_order :
    (∀ (servers : List String) (primaryServer : Option String)
        (lookupServers : List String) (modality : Option String)
        (altModalities : List String)
        (attempt : String → Option String → Bool × Option String),
        build_server_candidates servers primaryServer lookupServers ≠ [] →
        process_query_with_lookup servers primaryServer lookupServers
            modality altModalities attempt =
          ((crossPairs
              (build_server_candidates servers primaryServer lookupServers)
              (build_modality_candidates modality altModalities)).any
            (fun q => (attempt q.1 q.2).1),
           takeThrough (fun q => (attempt q.1 q.2).1)
            (crossPairs
              (build_server_candidates servers primaryServer lookupServers)
              (build_modality_candidates modality altModalities))))
    ∧ process_query_with_lookup ["S1", "S2"] (some "S1") ["S2"] (some "CT")
        ["MR"] (fun s m => (s == "S2" && m == some "CT",
          some "no matching studies found"))
      = (true, [("S1", some "CT"), ("S1", some "MR"), ("S2", some "CT")])
    ∧ [("S1", some "CT"), ("S1", some "MR"), ("S2", some "CT")].length = 3 := by
  refine ⟨?_, by decide, by decide⟩
  intro servers primaryServer lookupServers modality altModalities attempt h
  simp only [process_query_with_lookup]
  rw [if_neg h, tryServers_success, tryServers_trace]

/-- The `all_successful` flag of the move loop: no failed studies exactly
when every move succeeded. -/
theorem filter_not_isEmpty_eq_all (moveOk : String → Bool)
    (studies : List String) :
    (studies.filter (fun u => !moveOk u)).isEmpty = studies.all moveOk := by
  induction studies with
  | nil => rfl
  | cons s rest ih =>
    rw [List.filter_cons, List.all_cons]
    by_cases hm : moveOk s = true
    · simp [hm, ih]
    · simp only [Bool.not_eq_true] at hm
      simp [hm]

/-- C3: for every non-empty list of studies returned by the query phase, the
Query-Retrieve attempt (`process_query`) reports success if and only if the
move succeeds for every study; when N of M moves fail (N ≥ 1) it returns
failure with the reason `C-MOVE failed for N of M studies`, and the
successfully moved studies are still recorded in `move_requests` with status
`SUCCESS`; in the concrete 2-study scenario with 1 failure the reason
contains `1 of 2`. -/
theorem process_query_outcomes :
    (∀ (moveOk : String → Bool) (recordFailure : Bool)
        (studies : List String) (st : SessionState),
        studies ≠ [] →
        ((process_query moveOk recordFailure studies st).1.1 = true ↔
          studies.all moveOk = true))
    ∧ (∀ (moveOk : String → Bool) (recordFailure : Bool)
        (studies : List String) (st : SessionState),
        studies ≠ [] → studies.all moveOk = false →
        (process_query moveOk recordFailure studies st).1.2 =
          some ("C-MOVE failed for "
            ++ toString (studies.filter (fun u => !moveOk u)).length
            ++ " of " ++ toString studies.length ++ " studies"))
    ∧ (∀ (moveOk : String → Bool) (recordFailure : Bool)
        (studies : List String) (st : SessionState),
        studies ≠ [] →
        (process_query moveOk recordFailure studies st).2.move_requests =
          st.move_requests ++
            (studies.filter moveOk).map (fun u => (u, "SUCCESS")))
    ∧ (process_query (fun u => u == "S1") false ["S1", "S2"]
        ⟨[], [], []⟩).1 = (false, some "C-MOVE failed for 1 of 2 studies")
    ∧ strContains "C-MOVE failed for 1 of 2 studies" "1 of 2" = true
    ∧ (process_query (fun u => u == "S1") false ["S1", "S2"]
        ⟨[], [], []⟩).2.move_requests = [("S1", "SUCCESS")] := by
  refine ⟨?_, ?_, ?_, by decide, by decide, by decide⟩
  · intro moveOk recordFailure studies st h
    simp only [process_query, if_neg h, filter_not_isEmpty_eq_all]
    by_cases hall : studies.all moveOk = true
    · simp [hall]
    · simp only [Bool.not_eq_true] at hall
      simp [hall]
  · intro moveOk recordFailure studies st h hall
    simp only [process_query, if_neg h, filter_not_isEmpty_eq_all]
    simp [hall]
  · intro moveOk recordFailure studies st h
    simp only [process_query, if_neg h, filter_not_isEmpty_eq_all]
    by_cases hall : studies.all moveOk = true
    · simp [hall]
      split <;> rfl
    · simp only [Bool.not_eq_true] at hall
      simp [hall]

/-- Header-branch counting: every non-comment data row is either kept or
counted as skipped, nothing twice. -/
theorem parseHeaderRows_count (fieldnames : List String) :
    ∀ l : List (List String),
    (parseHeaderRows fieldnames l).2 +
        (parseHeaderRows fieldnames l).1.length =
      (l.filter (fun v => !isHeaderComment fieldnames v)).length := by
  intro l
  induction l with
  | nil => rfl
  | cons v rest ih =>
    rw [parseHeaderRows, List.filter_cons]
    by_cases hc : isHeaderComment fieldnames v = true
    · simp [hc, ih]
    · simp only [Bool.not_eq_true] at hc
      by_cases hcomp : headerRowComplete fieldnames v = true
      · simp only [hc, hcomp, if_true, if_pos, Bool.not_false,
          List.length_cons, List.length_nil]
        simp [hc]
        omega
      · simp only [Bool.not_eq_true] at hcomp
        simp [hc, hcomp]
        omega

/-- Positional-branch counting: every non-blank, non-comment row is either
kept or counted as skipped, nothing twice. -/
theorem parsePositionalRows_count :
    ∀ l : List (List String),
    (parsePositionalRows l).2 + (parsePositionalRows l).1.length =
      (l.filter (fun r => !isPositionalDropped r)).length := by
  intro l
  induction l with
  | nil => rfl
  | cons row rest ih =>
    rw [parsePositionalRows, List.filter_cons]
    by_cases hd : isPositionalDropped row = true
    · simp [hd, ih]
    · simp only [Bool.not_eq_true] at hd
      by_cases hlen : row.length < 4
      · simp [hd, hlen]
        omega
      · simp [hd, hlen]
        omega

/-- C4: for every worklist, the Case Ingestor (`parse_case_list`) returns
records and a skipped count with `skipped + records = input rows excluding
comment and blank lines` (and, in header mode, excluding the header line);
the positional worklist `P1,2024-01-01,CT,SRV1 / #comment / P2,2024-01-02,MR`
yields 1 skipped row (insufficient columns) and the single valid record
`P1`. -/
theorem parse_case_list_count :
    (∀ lines : List String,
        (parse_case_list lines).skipped +
            (parse_case_list lines).rows.length = countedRows lines)
    ∧ parse_case_list ["P1,2024-01-01,CT,SRV1", "#comment", "P2,2024-01-02,MR"]
        = { has_header := false, fieldnames := none,
            rows := [["P1", "2024-01-01", "CT", "SRV1"]], skipped := 1 } := by
  refine ⟨?_, by decide⟩
  intro lines
  cases lines with
  | nil => rfl
  | cons firstLine rest =>
    rw [parse_case_list, countedRows]
    by_cases hh : hasHeaderLine firstLine = true
    · rw [if_pos hh, if_pos hh]
      exact parseHeaderRows_count _ _
    · rw [if_neg hh, if_neg hh]
      exact parsePositionalRows_count _
